import Mathlib

/-!
Verification of the car_picker core (filename parsing, manufacturer lexicon,
and quiz generation) against its natural-language specification.

The Python modules `car_picker/utils/parsing.py` and `car_picker/utils/quiz.py`
are shallowly embedded below.  Conventions used throughout:

* Python `str` is modelled as Lean `String`; character classification and case
  mapping (`lower`, `upper`, `capitalize`, `isupper`, `isdigit`, `\d`, `\s`)
  are modelled at ASCII granularity, which covers every string the repository
  manipulates.
* Python `int` is modelled as `Int` (arbitrary precision in both).
* `random.Random` is modelled as a deterministic stream of naturals together
  with a read position; `random.shuffle` is modelled as repeated random
  extraction driven by the stream (any permutation is reachable, and the
  result is provably a permutation of the input).
* `uuid.uuid4()` is modelled as a fresh-identifier counter local to one
  `generate_question` call: the ids handed out are pairwise distinct, which is
  the property the surrounding code relies on.
* `dict` (insertion ordered in Python 3.7+) is modelled as an association
  list in insertion order, later inserts overwriting earlier bindings.
-/

namespace CarPicker

/-! ### ASCII character helpers -/

def isAsciiDigit (c : Char) : Bool := '0' ≤ c && c ≤ '9'

def isAsciiLower (c : Char) : Bool := 'a' ≤ c && c ≤ 'z'

def isAsciiUpperChar (c : Char) : Bool := 'A' ≤ c && c ≤ 'Z'

def isAsciiAlpha (c : Char) : Bool := isAsciiLower c || isAsciiUpperChar c

def isAsciiAlnum (c : Char) : Bool := isAsciiAlpha c || isAsciiDigit c

/-- ASCII whitespace stripped by Python's `str.strip()` (and matched by `\s`). -/
def isPyWs (c : Char) : Bool :=
  c = ' ' || c = '\t' || c = '\n' || c = '\x0d' || c = '\x0b' || c = '\x0c'

/-- ASCII upper-casing, written as an explicit table so that facts about it
can be settled by case analysis. -/
def asciiUpper : Char → Char
  | 'a' => 'A' | 'b' => 'B' | 'c' => 'C' | 'd' => 'D' | 'e' => 'E' | 'f' => 'F'
  | 'g' => 'G' | 'h' => 'H' | 'i' => 'I' | 'j' => 'J' | 'k' => 'K' | 'l' => 'L'
  | 'm' => 'M' | 'n' => 'N' | 'o' => 'O' | 'p' => 'P' | 'q' => 'Q' | 'r' => 'R'
  | 's' => 'S' | 't' => 'T' | 'u' => 'U' | 'v' => 'V' | 'w' => 'W' | 'x' => 'X'
  | 'y' => 'Y' | 'z' => 'Z'
  | c => c

/-- ASCII lower-casing, the model of Python `str.lower` per character. -/
def asciiLower : Char → Char
  | 'A' => 'a' | 'B' => 'b' | 'C' => 'c' | 'D' => 'd' | 'E' => 'e' | 'F' => 'f'
  | 'G' => 'g' | 'H' => 'h' | 'I' => 'i' | 'J' => 'j' | 'K' => 'k' | 'L' => 'l'
  | 'M' => 'm' | 'N' => 'n' | 'O' => 'o' | 'P' => 'p' | 'Q' => 'q' | 'R' => 'r'
  | 'S' => 's' | 'T' => 't' | 'U' => 'u' | 'V' => 'v' | 'W' => 'w' | 'X' => 'x'
  | 'Y' => 'y' | 'Z' => 'z'
  | c => c

/-! ### Python string primitives -/

/-- Python `s.split(sep)` for a single-character separator: splits on every
occurrence and keeps empty pieces (`"a__b".split("_") == ["a", "", "b"]`). -/
def pySplit (sep : Char) : List Char → List (List Char)
  | [] => [[]]
  | c :: rest =>
    if c = sep then [] :: pySplit sep rest
    else
      match pySplit sep rest with
      | [] => [[c]]
      | p :: ps => (c :: p) :: ps

/-- `" ".join(pieces)` on character lists. -/
def joinSpace : List (List Char) → List Char
  | [] => []
  | [p] => p
  | p :: ps => p ++ ' ' :: joinSpace ps

/-- Python `str.strip()`: drop leading and trailing whitespace. -/
def stripChars (cs : List Char) : List Char :=
  ((cs.dropWhile isPyWs).reverse.dropWhile isPyWs).reverse

/-- Python `str.capitalize()`: first character upper-cased, the rest
lower-cased (ASCII model; `"".capitalize() == ""`). -/
def pyCapitalizeChars : List Char → List Char
  | [] => []
  | c :: rest => asciiUpper c :: rest.map asciiLower

/-- Python `str.isupper()`: at least one cased character, and no cased
character is lower-case (ASCII model: cased = letter). -/
def pyIsUpper (s : String) : Bool :=
  s.data.any isAsciiAlpha && s.data.all (fun c => !isAsciiLower c)

/-- Python `str.isdigit()`: non-empty and all digits (ASCII model). -/
def pyIsDigit (s : String) : Bool :=
  !s.data.isEmpty && s.data.all isAsciiDigit

/-- Python `str.upper()` (ASCII model). -/
def pyUpperStr (s : String) : String := String.mk (s.data.map asciiUpper)

/-! ### `parsing.py`: `normalize_name` -/

/-- `normalize_name(value)` from `parsing.py`:
`re.sub(r"[^a-z0-9]+", " ", value.lower()).strip()` — lower-case, collapse
every maximal run of non-`[a-z0-9]` characters to a single space, trim.
Replacing each non-alphanumeric character by a space and re-joining the
non-empty space-separated pieces with single spaces realises exactly that. -/
def normalize_name (value : String) : String :=
  let lowered := value.data.map asciiLower
  let mapped := lowered.map (fun c => if isAsciiLower c || isAsciiDigit c then c else ' ')
  String.mk (joinSpace ((pySplit ' ' mapped).filter (· ≠ [])))

/-! ### `parsing.py`: `humanize_token` / `humanize_tokens` -/

/-- `humanize_token(token)` from `parsing.py`: fully-uppercase, purely numeric,
or short already-uppercase tokens pass through; otherwise hyphens become
spaces and each space-separated part is capitalized, then the result is
stripped. -/
def humanize_token (token : String) : String :=
  if pyIsUpper token then token
  else if pyIsDigit token then token
  else if token.length ≤ 3 && pyUpperStr token = token then token
  else
    let cleaned := token.data.map (fun c => if c = '-' then ' ' else c)
    let parts := pySplit ' ' cleaned
    String.mk (stripChars (joinSpace (parts.map pyCapitalizeChars)))

/-- `humanize_tokens(tokens)` from `parsing.py`: humanize each token and join
with single spaces. -/
def humanize_tokens (tokens : List String) : String :=
  String.mk (joinSpace (tokens.map (fun t => (humanize_token t).data)))

/-! ### `parsing.py`: year detection -/

/-- The body of `YEAR_PATTERN = re.compile(r"^(19|20)\d{2}$")` on exactly four
characters (digits modelled as ASCII). -/
def yearCore : List Char → Bool
  | [a, b, c, d] =>
    ((a = '1' && b = '9') || (a = '2' && b = '0')) && isAsciiDigit c && isAsciiDigit d
  | _ => false

/-- `YEAR_PATTERN.match(token)` truthiness.  Python's `$` also matches just
before a single trailing newline, so a five-character token ending in `'\n'`
whose first four characters fit the pattern matches as well. -/
def matchesYearPattern (t : String) : Bool :=
  yearCore t.data ||
    (match t.data with
     | [a, b, c, d, e] => e = '\n' && yearCore [a, b, c, d]
     | _ => false)

def digitVal (c : Char) : Nat := c.toNat - '0'.toNat

/-- `int(token)` for a token accepted by `YEAR_PATTERN` (four digits, possibly
followed by a newline, which `int` ignores): the value of the first four
digits. -/
def yearVal (t : String) : Int :=
  match t.data with
  | a :: b :: c :: d :: _ =>
    ((1000 * digitVal a + 100 * digitVal b + 10 * digitVal c + digitVal d : Nat) : Int)
  | _ => 0

/-- The combined test of the loop body of `find_year_index`: the token matches
`YEAR_PATTERN` and its integer value lies in `[1950, 2035]`. -/
def isYearToken (t : String) : Bool :=
  matchesYearPattern t && decide (1950 ≤ yearVal t) && decide (yearVal t ≤ 2035)

/-- `find_year_index(tokens)` from `parsing.py`: index of the first token that
matches `YEAR_PATTERN` with value in `[1950, 2035]`; `None` otherwise.  The
`enumerate` loop is rendered as structural recursion with an index shift. -/
def find_year_index : List String → Option Nat
  | [] => none
  | t :: rest =>
    if isYearToken t then some 0
    else (find_year_index rest).map (· + 1)

/-! ### `parsing.py`: `Lexicon` -/

/-- `Lexicon.makes`: the canonical-make → alias-list mapping (`Dict[str,
List[str]]`, insertion ordered). -/
structure Lexicon where
  makes : List (String × List String)

/-- The insertion sequence of `Lexicon.__post_init__`: for every canonical
name, each of `aliases + [canonical]` is normalized and bound to the
canonical name. -/
def aliasEntries (lex : Lexicon) : List (String × String) :=
  (lex.makes.map (fun p => (p.2 ++ [p.1]).map (fun a => (normalize_name a, p.1)))).flatten

/-- `self._alias_lookup.get(candidate)`: dict lookup where later insertions
overwrite earlier ones, hence the lookup scans the reversed insertion list. -/
def aliasGet (lex : Lexicon) (key : String) : Option String :=
  (aliasEntries lex).reverse.lookup key

/-- The window loop of `Lexicon.resolve_make`, counting the window size down
from `min(len(tokens), 3)` to 1.  A hit is returned only when it is truthy
(`if match:`), i.e. a non-empty canonical name. -/
def resolveGo (lex : Lexicon) (tokens : List String) : Nat → Option String × Nat
  | 0 => (none, 0)
  | n + 1 =>
    match aliasGet lex (normalize_name (String.intercalate " " (tokens.take (n + 1)))) with
    | some m => if m = "" then resolveGo lex tokens n else (some m, n + 1)
    | none => resolveGo lex tokens n

/-- `Lexicon.resolve_make(tokens)` from `parsing.py`: longest-window-first
alias resolution; returns the canonical make and the number of tokens
consumed, or `(None, 0)`. -/
def Lexicon.resolve_make (lex : Lexicon) (tokens : List String) : Option String × Nat :=
  resolveGo lex tokens (min tokens.length 3)

/-- `DEFAULT_MAKE_ALIASES` from `parsing.py`, verbatim. -/
def DEFAULT_MAKE_ALIASES : List (String × List String) :=
  [ ("Acura", ["acura"])
  , ("Alfa Romeo", ["alfa", "alfa romeo"])
  , ("Aston Martin", ["aston", "aston martin"])
  , ("Audi", ["audi"])
  , ("Bentley", ["bentley"])
  , ("BMW", ["bmw"])
  , ("Buick", ["buick"])
  , ("Cadillac", ["cadillac"])
  , ("Chevrolet", ["chevrolet", "chevy"])
  , ("Chrysler", ["chrysler"])
  , ("Dodge", ["dodge"])
  , ("Ferrari", ["ferrari"])
  , ("Fiat", ["fiat"])
  , ("Ford", ["ford"])
  , ("GMC", ["gmc"])
  , ("Honda", ["honda"])
  , ("Hyundai", ["hyundai"])
  , ("Infiniti", ["infiniti"])
  , ("Jaguar", ["jaguar"])
  , ("Jeep", ["jeep"])
  , ("Kia", ["kia"])
  , ("Lamborghini", ["lamborghini"])
  , ("Land Rover", ["land rover", "landrover"])
  , ("Lexus", ["lexus"])
  , ("Lincoln", ["lincoln"])
  , ("Maserati", ["maserati"])
  , ("Mazda", ["mazda"])
  , ("McLaren", ["mclaren"])
  , ("Mercedes-Benz", ["mercedes", "mercedes benz", "mercedes-benz"])
  , ("Mini", ["mini"])
  , ("Mitsubishi", ["mitsubishi"])
  , ("Nissan", ["nissan"])
  , ("Porsche", ["porsche"])
  , ("Ram", ["ram"])
  , ("Rolls-Royce", ["rolls royce", "rolls-royce"])
  , ("Saab", ["saab"])
  , ("Scion", ["scion"])
  , ("Subaru", ["subaru"])
  , ("Tesla", ["tesla"])
  , ("Toyota", ["toyota"])
  , ("Volkswagen", ["volkswagen", "vw"])
  , ("Volvo", ["volvo"])
  ]

def defaultLexicon : Lexicon := ⟨DEFAULT_MAKE_ALIASES⟩

/-! ### `parsing.py`: `CarRecord` and `parse_car_filename` -/

/-- `CarRecord` from `parsing.py`: one parsed entry for an image. -/
structure CarRecord where
  path : String
  make : String
  model : String
  year : Int
deriving DecidableEq, Repr

/-- `CarRecord.label`: `f"{self.make} {self.model} {self.year}"`. -/
def CarRecord.label (r : CarRecord) : String :=
  r.make ++ " " ++ r.model ++ " " ++ toString r.year

/-- The tokenisation performed by `parse_car_filename`: `stem.split("_")`. -/
def stemTokens (stem : String) : List String :=
  (pySplit '_' stem.data).map String.mk

/-- `parse_car_filename(path, base_dir, lexicon)` from `parsing.py`, taking
the filename stem (`path.stem`) and the relative path string
(`str(path.relative_to(base_dir))`) directly; filesystem handling is outside
the core. -/
def parse_car_filename (stem relPath : String) (lexicon : Lexicon) : Option CarRecord :=
  let tokens := stemTokens stem
  match find_year_index tokens with
  | none => none
  | some year_idx =>
    if year_idx = 0 then none
    else
      let pre_year_tokens := tokens.take year_idx
      if pre_year_tokens = [] then none
      else
        let resolved := lexicon.resolve_make pre_year_tokens
        -- `if not make:` — `resolve_make` never returns a truthy empty string,
        -- so the fallback fires exactly on `None`.
        let makeConsumed :=
          match resolved.1 with
          | some m => (m, resolved.2)
          | none => (humanize_token (pre_year_tokens.headD ""), 1)
        let model_tokens := pre_year_tokens.drop makeConsumed.2
        if model_tokens = [] then none
        else
          some { path := relPath
               , make := makeConsumed.1
               , model := humanize_tokens model_tokens
               , year := yearVal (tokens.getD year_idx "") }

/-! ### `quiz.py`: data types -/

/-- A `(make, model, year)` grouping key. -/
abbrev GroupKey := String × String × Int

def recKey (r : CarRecord) : GroupKey := (r.make, r.model, r.year)

/-- The two `ValueError`s raised by `generate_question`, distinguished (as the
spec's taxonomy does) by their messages: "Need at least 2 choices…" and "Not
enough unique car combinations…". -/
inductive QuizError where
  | invalidChoiceCount
  | insufficientCatalog
deriving DecidableEq, Repr

structure QuizChoice where
  id : Nat
  label : String
  record : CarRecord
deriving DecidableEq, Repr

structure QuizQuestion where
  id : Nat
  image_record : CarRecord
  correct_choice_id : Nat
  choices : List QuizChoice
deriving Repr

/-- `_format_label(make, model, year)` from `quiz.py`. -/
def _format_label (k : GroupKey) : String :=
  k.1 ++ " " ++ k.2.1 ++ " " ++ toString k.2.2

/-- `is_correct(question, choice_id)` from `quiz.py`. -/
def is_correct (question : QuizQuestion) (choice_id : Nat) : Bool :=
  question.correct_choice_id == choice_id

/-! ### `quiz.py`: `_group_by_meta`

Python builds an insertion-ordered `dict` via
`grouped.setdefault(key, []).append(record)`; the model is an association
list: a record with a known key is appended to that key's bucket, a fresh key
is appended at the end. -/

def groupUpd (g : List (GroupKey × List CarRecord)) (r : CarRecord) :
    List (GroupKey × List CarRecord) :=
  if g.any (fun e => decide (e.1 = recKey r)) then
    g.map (fun e => if e.1 = recKey r then (e.1, e.2 ++ [r]) else e)
  else g ++ [(recKey r, [r])]

def _group_by_meta (records : List CarRecord) : List (GroupKey × List CarRecord) :=
  records.foldl groupUpd []

/-- `catalog[key]` (used by `generate_question` for `target_records` and for
the representative `catalog[key][0]`); keys looked up below always occur in
the catalog, so the `[]` branch is never consulted. -/
def catalogGroup (catalog : List (GroupKey × List CarRecord)) (k : GroupKey) :
    List CarRecord :=
  match catalog.find? (fun e => decide (e.1 = k)) with
  | some e => e.2
  | none => []

/-! ### The random source

`random.Random` is modelled as a deterministic stream of naturals plus a read
position.  `choice` consumes one stream value; `shuffle` consumes one value
per element, repeatedly extracting the element at a stream-chosen index (the
result is a permutation of the input, and every permutation is reachable by a
suitable stream). -/

structure Rng where
  stream : Nat → Nat
  pos : Nat

/-- `rng.choice(seq)`: the element at a stream-chosen index.  Python raises
`IndexError` on an empty sequence; both uses in `generate_question` are on
provably non-empty lists, so the default is never consulted. -/
def Rng.choiceD (r : Rng) (l : List α) (d : α) : α × Rng :=
  (l.getD (r.stream r.pos % l.length) d, ⟨r.stream, r.pos + 1⟩)

def shuffleFuel (stream : Nat → Nat) : Nat → Nat → List α → List α
  | _, 0, l => l
  | pos, fuel + 1, l =>
    match l with
    | [] => []
    | a :: as =>
      let i := stream pos % (a :: as).length
      (a :: as).getD i a :: shuffleFuel stream (pos + 1) fuel ((a :: as).eraseIdx i)

/-- `rng.shuffle(seq)` (functionally: returns the shuffled list). -/
def Rng.shuffle (r : Rng) (l : List α) : List α × Rng :=
  (shuffleFuel r.stream r.pos l.length l, ⟨r.stream, r.pos + l.length⟩)

/-! ### `quiz.py`: `_pick_distractor_keys` -/

/-- Tier a candidates: `[key for key in catalog if key[0] == make and key != target_key]`. -/
def sameMakeOf (keys : List GroupKey) (target : GroupKey) : List GroupKey :=
  keys.filter (fun k => decide (k.1 = target.1) && decide (k ≠ target))

/-- Tier b candidates: `[key for key in catalog if key[0] != make]`. -/
def otherOf (keys : List GroupKey) (target : GroupKey) : List GroupKey :=
  keys.filter (fun k => decide (k.1 ≠ target.1))

/-- The `for key in …: selected.append(key); if len(selected) >= num_needed:
break` loop used by tiers a and c. -/
def tierTake : List GroupKey → List GroupKey → Nat → List GroupKey
  | [], selected, _ => selected
  | k :: rest, selected, needed =>
    if (selected ++ [k]).length ≥ needed then selected ++ [k]
    else tierTake rest (selected ++ [k]) needed

/-- The tier b loop, which additionally skips keys already selected
(`if key not in selected`); note the quota test runs whether or not the key
was appended, as in the source. -/
def tierDedup : List GroupKey → List GroupKey → Nat → List GroupKey
  | [], selected, _ => selected
  | k :: rest, selected, needed =>
    let selected' := if k ∈ selected then selected else selected ++ [k]
    if selected'.length ≥ needed then selected'
    else tierDedup rest selected' needed

/-- The sort key of tier b: absolute year distance to the target's year. -/
def distLe (year : Int) (a b : GroupKey) : Prop :=
  (a.2.2 - year).natAbs ≤ (b.2.2 - year).natAbs

instance (year : Int) : DecidableRel (distLe year) := fun a b => by
  unfold distLe; exact inferInstance

/-- `_pick_distractor_keys` from `quiz.py`.  Python's `sorted` is a stable
sort by the key function; it is modelled by Mathlib's (stable)
`List.insertionSort` on the `distLe` relation. -/
def _pick_distractor_keys (catalog : List (GroupKey × List CarRecord))
    (target_key : GroupKey) (num_needed : Nat) (rng : Rng) : List GroupKey × Rng :=
  let keys := catalog.map Prod.fst
  let sm := rng.shuffle (sameMakeOf keys target_key)
  let ot := sm.2.shuffle (otherOf keys target_key)
  let sel1 := tierTake sm.1 [] num_needed
  let sel2 :=
    if sel1.length < num_needed then
      tierDedup (List.insertionSort (distLe target_key.2.2) ot.1) sel1 num_needed
    else sel1
  let sel3 :=
    if sel2.length < num_needed then
      let pool := ot.2.shuffle
        (keys.filter (fun k => decide (k ≠ target_key) && decide (k ∉ sel2)))
      (tierTake pool.1 sel2 num_needed, pool.2)
    else (sel2, ot.2)
  (sel3.1.take num_needed, sel3.2)

/-! ### `quiz.py`: `generate_question` -/

def dummyRecord : CarRecord := { path := "", make := "", model := "", year := 0 }

/-- The choice list before the final shuffle: the correct choice (labelled
with the target key, carrying the displayed record) followed by one choice
per distractor key, labelled with that key and carrying `catalog[key][0]`.
`uuid.uuid4()` is modelled as a counter, in call order: the correct choice's
id is 0, distractors get 1, 2, …. -/
def buildChoices (catalog : List (GroupKey × List CarRecord)) (target_key : GroupKey)
    (image_record : CarRecord) (dkeys : List GroupKey) : List QuizChoice :=
  { id := 0, label := _format_label target_key, record := image_record } ::
    dkeys.enum.map (fun p =>
      { id := p.1 + 1
      , label := _format_label p.2
      , record := (catalogGroup catalog p.2).headD image_record })

/-- `generate_question(records, num_choices=…, rng=…)` from `quiz.py`.

`rng.choice(unique_keys)` picks the key at a random index `i` of
`unique_keys = list(catalog.keys())`, and `catalog[target_key]` is then the
bucket of entry `i`; the model therefore picks the catalog entry at index `i`
directly.  The question id is allocated last, after the choice ids, as in the
source. -/
def generate_question (records : List CarRecord) (num_choices : Int) (rng : Rng) :
    Except QuizError (QuizQuestion × Rng) :=
  if num_choices < 2 then .error .invalidChoiceCount
  else
    let catalog := _group_by_meta records
    if (catalog.length : Int) < num_choices then .error .insufficientCatalog
    else
      let tgt := rng.choiceD catalog (("", "", 0), [])
      let target_key := tgt.1.1
      let img := tgt.2.choiceD tgt.1.2 dummyRecord
      let dk := _pick_distractor_keys catalog target_key (num_choices - 1).toNat img.2
      let shuffled := dk.2.shuffle (buildChoices catalog target_key img.1 dk.1)
      .ok ({ id := dk.1.length + 1
           , image_record := img.1
           , correct_choice_id := 0
           , choices := shuffled.1 }, shuffled.2)

/-- Projection of a `generate_question` result onto the error, usable in
decidable statements (the success branch carries the rng, a function). -/
def errOf : Except QuizError (QuizQuestion × Rng) → Option QuizError
  | .error e => some e
  | .ok _ => none

/-- Projection of a `generate_question` result onto the choice list. -/
def choicesOf : Except QuizError (QuizQuestion × Rng) → Option (List QuizChoice)
  | .error _ => none
  | .ok p => some p.1.choices

/-! ### Persistence (`load_or_build_index` round trip)

`load_or_build_index` saves `json.dump([asdict(record) for record in records])`
and loads `[CarRecord(**record) for record in raw_records]`.  The JSON layer
is modelled by an in-memory JSON value (the on-disk byte encoding is the
persistence collaborator's concern, per the spec's §6): `asdict` produces the
object with the four fields in declaration order, and `CarRecord(**record)`
consumes exactly those four fields. -/

inductive Json where
  | str : String → Json
  | int : Int → Json
  | arr : List Json → Json
  | obj : List (String × Json) → Json

/-- `asdict(record)` followed by `json.dump`. -/
def serializeRecord (r : CarRecord) : Json :=
  .obj [("path", .str r.path), ("make", .str r.make),
        ("model", .str r.model), ("year", .int r.year)]

def serializeRecords (rs : List CarRecord) : Json := .arr (rs.map serializeRecord)

/-- `CarRecord(**record)`: requires exactly the four serialized fields with
their types. -/
def deserializeRecord : Json → Option CarRecord
  | .obj [("path", .str p), ("make", .str mk), ("model", .str md), ("year", .int y)] =>
    some { path := p, make := mk, model := md, year := y }
  | _ => none

def deserializeList : List Json → Option (List CarRecord)
  | [] => some []
  | j :: rest =>
    match deserializeRecord j, deserializeList rest with
    | some r, some rs => some (r :: rs)
    | _, _ => none

/-- `[CarRecord(**record) for record in raw_records]` applied to a loaded
JSON value. -/
def deserializeRecords : Json → Option (List CarRecord)
  | .arr js => deserializeList js
  | _ => none

/-! ### Observables used by the claim statements -/

/-- The alias-table lookup performed for the window of `size` leading tokens:
the expression inside the loop of `resolve_make`. -/
def windowHit (lex : Lexicon) (tokens : List String) (size : Nat) : Option String :=
  aliasGet lex (normalize_name (String.intercalate " " (tokens.take size)))

/-- The `(make, model, year)` group a choice represents (via the record it
carries). -/
def choiceKey (c : QuizChoice) : GroupKey := recKey c.record

/-- Number of distinct `(make, model, year)` groups of a record list. -/
def groupsCount (records : List CarRecord) : Nat := (_group_by_meta records).length

/-! ### Concrete sample data used by witnesses and counterexamples -/

/-- A deterministic random source whose stream is constantly zero. -/
def zeroRng : Rng := ⟨fun _ => 0, 0⟩

/-- Two records in distinct `(make, model, year)` groups whose formatted
labels coincide (`"A B C 2000"`). -/
def cexR1 : CarRecord := { path := "p1", make := "A", model := "B C", year := 2000 }

def cexR2 : CarRecord := { path := "p2", make := "A B", model := "C", year := 2000 }

def toyR1 : CarRecord := { path := "t1", make := "Toyota", model := "Corolla", year := 2000 }

def toyR2 : CarRecord := { path := "t2", make := "Toyota", model := "Camry", year := 2001 }

def toyR3 : CarRecord := { path := "t3", make := "Toyota", model := "Prius", year := 2002 }

def hondaR : CarRecord := { path := "h1", make := "Honda", model := "Civic", year := 2000 }

def fordR : CarRecord := { path := "f1", make := "Ford", model := "F150", year := 2005 }

/-- The record parsed from `ford_mustang_gt_2018_01.jpg`. -/
def fordRec : CarRecord :=
  { path := "ford_mustang_gt_2018_01.jpg", make := "Ford", model := "Mustang Gt", year := 2018 }

/-! ## Helper lemmas -/

/-! ### Characters and Python string primitives -/

theorem isAsciiAlnum_not_ws {c : Char} (h : isAsciiAlnum c = true) : isPyWs c = false := by
  by_contra hws
  simp only [Bool.not_eq_false, isPyWs, Bool.or_eq_true, decide_eq_true_eq] at hws
  rcases hws with ((((h1 | h1) | h1) | h1) | h1) | h1 <;> subst h1 <;> simp_all [isAsciiAlnum, isAsciiAlpha, isAsciiLower, isAsciiUpperChar, isAsciiDigit]

theorem asciiUpper_alnum_not_ws {c : Char} (h : isAsciiAlnum c = true) :
    isPyWs (asciiUpper c) = false := by
  unfold asciiUpper
  split
  all_goals first
    | rfl
    | exact isAsciiAlnum_not_ws h

theorem asciiLower_alnum_not_ws {c : Char} (h : isAsciiAlnum c = true) :
    isPyWs (asciiLower c) = false := by
  unfold asciiLower
  split
  all_goals first
    | rfl
    | exact isAsciiAlnum_not_ws h

theorem pySplit_ne_nil (sep : Char) (cs : List Char) : pySplit sep cs ≠ [] := by
  induction cs with
  | nil => simp [pySplit]
  | cons a rest ih =>
    by_cases ha : a = sep
    · simp [pySplit, ha]
    · cases hrec : pySplit sep rest with
      | nil => exact absurd hrec ih
      | cons q qs => simp [pySplit, ha, hrec]

theorem mem_pySplit {sep : Char} {cs : List Char} {c : Char}
    (hc : c ∈ cs) (hne : c ≠ sep) : ∃ p ∈ pySplit sep cs, c ∈ p := by
  induction cs with
  | nil => cases hc
  | cons a rest ih =>
    by_cases ha : a = sep
    · subst ha
      have hc' : c ∈ rest := by
        cases hc with
        | head => exact absurd rfl hne
        | tail _ h => exact h
      obtain ⟨p, hp, hcp⟩ := ih hc'
      exact ⟨p, by simp [pySplit, hp], hcp⟩
    · cases hrec : pySplit sep rest with
      | nil => exact absurd hrec (pySplit_ne_nil sep rest)
      | cons q qs =>
        cases hc with
        | head =>
          exact ⟨c :: q, by simp [pySplit, ha, hrec], by simp⟩
        | tail _ h =>
          obtain ⟨p, hp, hcp⟩ := ih h
          rw [hrec] at hp
          cases hp with
          | head => exact ⟨a :: q, by simp [pySplit, ha, hrec], by simp [hcp]⟩
          | tail _ hq => exact ⟨p, by simp [pySplit, ha, hrec]; right; exact hq, hcp⟩

theorem mem_joinSpace {ps : List (List Char)} {p : List Char} {c : Char}
    (hp : p ∈ ps) (hc : c ∈ p) : c ∈ joinSpace ps := by
  induction ps with
  | nil => cases hp
  | cons q qs ih =>
    cases qs with
    | nil =>
      simp only [List.mem_singleton] at hp
      subst hp
      simpa [joinSpace] using hc
    | cons q' qs' =>
      cases hp with
      | head => exact by simp [joinSpace, hc]
      | tail _ h =>
        have := ih h
        simp only [joinSpace, List.mem_append, List.mem_cons]
        right
        right
        simpa [joinSpace] using this

theorem stripChars_ne_nil {cs : List Char} {c : Char}
    (hc : c ∈ cs) (hws : isPyWs c = false) : stripChars cs ≠ [] := by
  unfold stripChars
  intro hnil
  have h1 : c ∈ cs.dropWhile isPyWs := by
    have hsplit := List.takeWhile_append_dropWhile (p := isPyWs) (l := cs)
    rw [← hsplit] at hc
    rcases List.mem_append.mp hc with h | h
    · have := List.mem_takeWhile_imp h
      rw [this] at hws
      cases hws
    · exact h
  have h2 : c ∈ (cs.dropWhile isPyWs).reverse := List.mem_reverse.mpr h1
  have h3 : c ∈ (cs.dropWhile isPyWs).reverse.dropWhile isPyWs := by
    have hsplit := List.takeWhile_append_dropWhile (p := isPyWs)
      (l := (cs.dropWhile isPyWs).reverse)
    rw [← hsplit] at h2
    rcases List.mem_append.mp h2 with h | h
    · have := List.mem_takeWhile_imp h
      rw [this] at hws
      cases hws
    · exact h
  rw [List.reverse_eq_nil_iff] at hnil
  rw [hnil] at h3
  cases h3

theorem pyCapitalize_has_non_ws {p : List Char} {c : Char}
    (hc : c ∈ p) (halnum : isAsciiAlnum c = true) :
    ∃ c' ∈ pyCapitalizeChars p, isPyWs c' = false := by
  cases p with
  | nil => cases hc
  | cons a rest =>
    cases hc with
    | head =>
      exact ⟨asciiUpper c, by simp [pyCapitalizeChars], asciiUpper_alnum_not_ws halnum⟩
    | tail _ h =>
      refine ⟨asciiLower c, ?_, asciiLower_alnum_not_ws halnum⟩
      simp only [pyCapitalizeChars, List.mem_cons]
      right
      exact List.mem_map_of_mem _ h

theorem mk_ne_empty {cs : List Char} (h : cs ≠ []) : String.mk cs ≠ "" := by
  intro heq
  exact h (congrArg String.data heq)

theorem any_alnum_ne_empty {t : String} (h : t.data.any isAsciiAlnum = true) : t ≠ "" := by
  intro heq
  subst heq
  simp at h

/-- A token containing an ASCII alphanumeric character humanizes to a
non-empty string. -/
theorem humanize_token_ne_empty {token : String}
    (h : token.data.any isAsciiAlnum = true) : humanize_token token ≠ "" := by
  obtain ⟨c, hc, halnum⟩ := List.any_eq_true.mp h
  unfold humanize_token
  split_ifs with h1 h2 h3
  · exact any_alnum_ne_empty h
  · exact any_alnum_ne_empty h
  · exact any_alnum_ne_empty h
  · simp only []
    apply mk_ne_empty
    have hcdash : c ≠ '-' := by
      intro hd
      subst hd
      simp [isAsciiAlnum, isAsciiAlpha, isAsciiLower, isAsciiUpperChar, isAsciiDigit] at halnum
    have hcspace : c ≠ ' ' := by
      intro hd
      subst hd
      simp [isAsciiAlnum, isAsciiAlpha, isAsciiLower, isAsciiUpperChar, isAsciiDigit] at halnum
    have hclean : c ∈ token.data.map (fun c => if c = '-' then ' ' else c) := by
      have := List.mem_map_of_mem (fun c => if c = '-' then ' ' else c) hc
      simpa [if_neg hcdash] using this
    obtain ⟨p, hp, hcp⟩ := mem_pySplit hclean hcspace
    obtain ⟨c', hc', hws'⟩ := pyCapitalize_has_non_ws hcp halnum
    have hjoin : c' ∈ joinSpace ((pySplit ' '
        (token.data.map (fun c => if c = '-' then ' ' else c))).map pyCapitalizeChars) :=
      mem_joinSpace (List.mem_map_of_mem pyCapitalizeChars hp) hc'
    exact stripChars_ne_nil hjoin hws'

theorem joinSpace_head_ne_nil {d : List Char} {ds : List (List Char)} (h : d ≠ []) :
    joinSpace (d :: ds) ≠ [] := by
  cases ds with
  | nil => simpa [joinSpace] using h
  | cons e es =>
    simp only [joinSpace]
    intro hnil
    rcases List.append_eq_nil.mp hnil with ⟨hd, _⟩
    exact h hd

/-- A non-empty token list whose head humanizes non-trivially yields a
non-empty `humanize_tokens` result. -/
theorem humanize_tokens_ne_empty {t : String} {rest : List String}
    (h : humanize_token t ≠ "") : humanize_tokens (t :: rest) ≠ "" := by
  unfold humanize_tokens
  apply mk_ne_empty
  simp only [List.map_cons]
  apply joinSpace_head_ne_nil
  intro hnil
  exact h (by
    have : (humanize_token t).data = [] := hnil
    cases heq : humanize_token t
    · rw [heq] at this
      exact congrArg String.mk (by simpa using this))

/-! ### `find_year_index` -/

theorem isYearToken_range {t : String} (h : isYearToken t = true) :
    1950 ≤ yearVal t ∧ yearVal t ≤ 2035 := by
  simp only [isYearToken, Bool.and_eq_true, decide_eq_true_eq] at h
  exact ⟨h.1.2, h.2⟩

/-- `find_year_index` returns exactly the first index whose token matches the
year pattern with value in range. -/
theorem find_year_index_spec (tokens : List String) (i : Nat) :
    find_year_index tokens = some i ↔
      i < tokens.length ∧ isYearToken (tokens.getD i "") = true ∧
        ∀ j, j < i → isYearToken (tokens.getD j "") = false := by
  induction tokens generalizing i with
  | nil => simp [find_year_index]
  | cons t rest ih =>
    by_cases ht : isYearToken t = true
    · simp only [find_year_index, if_pos ht]
      cases i with
      | zero => simp [ht]
      | succ i' =>
        constructor
        · intro h
          cases h
        · rintro ⟨-, -, hall⟩
          have := hall 0 (Nat.succ_pos i')
          simp only [List.getD_cons_zero] at this
          rw [ht] at this
          cases this
    · have ht' : isYearToken t = false := by
        cases hb : isYearToken t
        · rfl
        · exact absurd hb ht
      simp only [find_year_index, if_neg ht]
      cases i with
      | zero =>
        constructor
        · intro h
          rcases Option.map_eq_some'.mp h with ⟨i', _, hcontra⟩
          cases hcontra
        · rintro ⟨-, hy, -⟩
          simp only [List.getD_cons_zero] at hy
          rw [ht'] at hy
          cases hy
      | succ i' =>
        have hmap : (find_year_index rest).map (· + 1) = some (i' + 1) ↔
            find_year_index rest = some i' := by
          constructor
          · intro h
            rcases Option.map_eq_some'.mp h with ⟨j, hj, hji⟩
            have : j = i' := by omega
            rwa [this] at hj
          · intro h
            rw [h]
            rfl
        rw [hmap, ih]
        constructor
        · rintro ⟨hlen, hy, hall⟩
          refine ⟨by simpa using Nat.succ_lt_succ hlen, by simpa using hy, ?_⟩
          intro j hj
          cases j with
          | zero => simpa using ht'
          | succ j' => simpa using hall j' (by omega)
        · rintro ⟨hlen, hy, hall⟩
          refine ⟨by simpa using Nat.lt_of_succ_lt_succ hlen, by simpa using hy, ?_⟩
          intro j hj
          have := hall (j + 1) (by omega)
          simpa using this

/-- `find_year_index` finds nothing iff no token qualifies. -/
theorem find_year_index_none (tokens : List String) :
    find_year_index tokens = none ↔ ∀ t ∈ tokens, isYearToken t = false := by
  induction tokens with
  | nil => simp [find_year_index]
  | cons t rest ih =>
    by_cases ht : isYearToken t = true
    · simp [find_year_index, ht]
    · have ht' : isYearToken t = false := by
        cases hb : isYearToken t
        · rfl
        · exact absurd hb ht
      simp [find_year_index, ht', ih]

/-! ### `resolve_make` -/

theorem resolveGo_spec (lex : Lexicon) (tokens : List String) (n : Nat) :
    (∀ m s, resolveGo lex tokens n = (some m, s) →
        m ≠ "" ∧ 1 ≤ s ∧ s ≤ n ∧ windowHit lex tokens s = some m ∧
          ∀ t, s < t → t ≤ n → ∀ m', windowHit lex tokens t = some m' → m' = "")
    ∧ (∀ s, resolveGo lex tokens n = (none, s) → s = 0 ∧
        ∀ t, 1 ≤ t → t ≤ n → ∀ m', windowHit lex tokens t = some m' → m' = "") := by
  induction n with
  | zero =>
    constructor
    · intro m s h
      cases h
    · intro s h
      refine ⟨by cases h; rfl, ?_⟩
      intro t h1 h2
      omega
  | succ n ih =>
    have hwin : aliasGet lex (normalize_name (String.intercalate " " (tokens.take (n + 1))))
        = windowHit lex tokens (n + 1) := rfl
    constructor
    · intro m s h
      rw [resolveGo] at h
      rcases hw : windowHit lex tokens (n + 1) with _ | m0
      · rw [hwin, hw] at h
        obtain ⟨hne, h1, h2, h3, h4⟩ := ih.1 m s h
        refine ⟨hne, h1, by omega, h3, ?_⟩
        intro t hst htn m' hm'
        rcases Nat.lt_or_ge t (n + 1) with hlt | hge
        · exact h4 t hst (by omega) m' hm'
        · have : t = n + 1 := by omega
          subst this
          rw [hw] at hm'
          cases hm'
      · rw [hwin, hw] at h
        dsimp only at h
        by_cases hm0 : m0 = ""
        · rw [if_pos hm0] at h
          obtain ⟨hne, h1, h2, h3, h4⟩ := ih.1 m s h
          refine ⟨hne, h1, by omega, h3, ?_⟩
          intro t hst htn m' hm'
          rcases Nat.lt_or_ge t (n + 1) with hlt | hge
          · exact h4 t hst (by omega) m' hm'
          · have : t = n + 1 := by omega
            subst this
            rw [hw] at hm'
            cases hm'
            exact hm0
        · rw [if_neg hm0] at h
          cases h
          refine ⟨hm0, by omega, le_refl _, hw, ?_⟩
          intro t hst htn
          omega
    · intro s h
      rw [resolveGo] at h
      rcases hw : windowHit lex tokens (n + 1) with _ | m0
      · rw [hwin, hw] at h
        obtain ⟨hs, hall⟩ := ih.2 s h
        refine ⟨hs, ?_⟩
        intro t h1 h2 m' hm'
        rcases Nat.lt_or_ge t (n + 1) with hlt | hge
        · exact hall t h1 (by omega) m' hm'
        · have : t = n + 1 := by omega
          subst this
          rw [hw] at hm'
          cases hm'
      · rw [hwin, hw] at h
        dsimp only at h
        by_cases hm0 : m0 = ""
        · rw [if_pos hm0] at h
          obtain ⟨hs, hall⟩ := ih.2 s h
          refine ⟨hs, ?_⟩
          intro t h1 h2 m' hm'
          rcases Nat.lt_or_ge t (n + 1) with hlt | hge
          · exact hall t h1 (by omega) m' hm'
          · have : t = n + 1 := by omega
            subst this
            rw [hw] at hm'
            cases hm'
            exact hm0
        · rw [if_neg hm0] at h
          cases h

/-- A resolved make is never the empty string. -/
theorem resolve_make_fst_ne_empty {lex : Lexicon} {tokens : List String} {m : String}
    (h : (lex.resolve_make tokens).1 = some m) : m ≠ "" := by
  have hpair : lex.resolve_make tokens = (some m, (lex.resolve_make tokens).2) := by
    cases hres : lex.resolve_make tokens
    rw [hres] at h
    simpa using h
  exact ((resolveGo_spec lex tokens (min tokens.length 3)).1 m _ hpair).1

/-! ### `_group_by_meta` invariants -/

/-- The grouping invariant: keys are pairwise distinct, buckets are non-empty,
and every record sits in the bucket of its own key. -/
def GroupInv (g : List (GroupKey × List CarRecord)) : Prop :=
  (g.map Prod.fst).Nodup ∧ ∀ e ∈ g, e.2 ≠ [] ∧ ∀ x ∈ e.2, recKey x = e.1

theorem groupUpd_inv {g : List (GroupKey × List CarRecord)} {r : CarRecord}
    (h : GroupInv g) : GroupInv (groupUpd g r) := by
  obtain ⟨hnd, hent⟩ := h
  unfold groupUpd
  by_cases hmem : g.any (fun e => decide (e.1 = recKey r)) = true
  · rw [if_pos hmem]
    constructor
    · have hkeys : (g.map (fun e => if e.1 = recKey r then (e.1, e.2 ++ [r]) else e)).map
          Prod.fst = g.map Prod.fst := by
        rw [List.map_map]
        apply List.map_congr_left
        intro e _
        by_cases he : e.1 = recKey r <;> simp [he]
      rw [hkeys]
      exact hnd
    · intro e' he'
      obtain ⟨e, he, hfe⟩ := List.mem_map.mp he'
      by_cases hkey : e.1 = recKey r
      · rw [if_pos hkey] at hfe
        subst hfe
        refine ⟨by simp, ?_⟩
        intro x hx
        rcases List.mem_append.mp hx with hx | hx
        · exact (hent e he).2 x hx
        · simp only [List.mem_singleton] at hx
          subst hx
          exact hkey.symm
      · rw [if_neg hkey] at hfe
        subst hfe
        exact hent e he
  · rw [if_neg hmem]
    have hnotin : recKey r ∉ g.map Prod.fst := by
      intro hin
      obtain ⟨e, he, hfe⟩ := List.mem_map.mp hin
      have : g.any (fun e => decide (e.1 = recKey r)) = true :=
        List.any_eq_true.mpr ⟨e, he, by simp [hfe]⟩
      exact hmem this
    constructor
    · rw [List.map_append]
      simp only [List.map_cons, List.map_nil]
      rw [List.nodup_append]
      refine ⟨hnd, List.nodup_singleton _, ?_⟩
      intro a ha hb
      simp only [List.mem_singleton] at hb
      exact hnotin (hb ▸ ha)
    · intro e' he'
      rcases List.mem_append.mp he' with he' | he'
      · exact hent e' he'
      · simp only [List.mem_singleton] at he'
        subst he'
        exact ⟨by simp, by simp⟩

theorem foldl_groupUpd_inv (records : List CarRecord) :
    ∀ g, GroupInv g → GroupInv (records.foldl groupUpd g) := by
  induction records with
  | nil => intro g h; exact h
  | cons r rest ih =>
    intro g h
    exact ih (groupUpd g r) (groupUpd_inv h)

theorem group_by_meta_inv (records : List CarRecord) : GroupInv (_group_by_meta records) :=
  foldl_groupUpd_inv records [] ⟨List.nodup_nil, by simp⟩

theorem catalogGroup_spec {g : List (GroupKey × List CarRecord)} {k : GroupKey}
    (hinv : GroupInv g) (hk : k ∈ g.map Prod.fst) :
    catalogGroup g k ≠ [] ∧ ∀ x ∈ catalogGroup g k, recKey x = k := by
  unfold catalogGroup
  have hex : ∃ e ∈ g, (fun e => decide (e.1 = k)) e = true := by
    obtain ⟨e, he, hfe⟩ := List.mem_map.mp hk
    exact ⟨e, he, by simp [hfe]⟩
  obtain ⟨e', hfind⟩ := Option.isSome_iff_exists.mp (List.find?_isSome.mpr hex)
  rw [hfind]
  have he'g : e' ∈ g := List.mem_of_find?_eq_some hfind
  have he'k : e'.1 = k := by simpa using List.find?_some hfind
  obtain ⟨hne, hall⟩ := hinv.2 e' he'g
  exact ⟨hne, fun x hx => (hall x hx).trans he'k⟩

/-! ### The shuffle model returns permutations -/

theorem getD_cons_eraseIdx_perm :
    ∀ (l : List α) (i : Nat) (d : α), i < l.length →
      (l.getD i d :: l.eraseIdx i).Perm l := by
  intro l
  induction l with
  | nil => intro i d h; cases h
  | cons a as ih =>
    intro i d h
    cases i with
    | zero => simp
    | succ i' =>
      have hi' : i' < as.length := by simpa using Nat.lt_of_succ_lt_succ h
      have hih := ih i' d hi'
      simp only [List.getD_cons_succ, List.eraseIdx_cons_succ]
      exact (List.Perm.swap a (as.getD i' d) (as.eraseIdx i')).trans (hih.cons a)

theorem shuffleFuel_perm (stream : Nat → Nat) :
    ∀ (fuel pos : Nat) (l : List α), (shuffleFuel stream pos fuel l).Perm l := by
  intro fuel
  induction fuel with
  | zero => intro pos l; rfl
  | succ f ih =>
    intro pos l
    cases l with
    | nil => rfl
    | cons a as =>
      simp only [shuffleFuel]
      have hlt : stream pos % (a :: as).length < (a :: as).length :=
        Nat.mod_lt _ (Nat.succ_pos _)
      exact ((ih (pos + 1) ((a :: as).eraseIdx _)).cons _).trans
        (getD_cons_eraseIdx_perm _ _ _ hlt)

theorem Rng.shuffle_perm (r : Rng) (l : List α) : (r.shuffle l).1.Perm l :=
  shuffleFuel_perm r.stream l.length r.pos l

/-! ### The selection loops -/

theorem tierTake_eq (l : List GroupKey) :
    ∀ (acc : List GroupKey) (needed : Nat), acc.length < needed →
      tierTake l acc needed = acc ++ l.take (needed - acc.length) := by
  induction l with
  | nil => intro acc needed _; simp [tierTake]
  | cons k rest ih =>
    intro acc needed hacc
    rw [tierTake]
    by_cases hfull : (acc ++ [k]).length ≥ needed
    · rw [if_pos hfull]
      have h1 : needed - acc.length = 1 := by
        simp only [List.length_append, List.length_singleton] at hfull
        omega
      rw [h1]
      simp
    · rw [if_neg hfull]
      have h2 : (acc ++ [k]).length < needed := by omega
      rw [ih _ _ h2]
      have h3 : needed - acc.length = (needed - (acc ++ [k]).length) + 1 := by
        simp only [List.length_append, List.length_singleton]
        simp only [List.length_append, List.length_singleton] at hfull
        omega
      rw [h3]
      simp [List.take_succ_cons]

theorem tierDedup_eq (l : List GroupKey) :
    ∀ (acc : List GroupKey) (needed : Nat),
      (∀ x ∈ l, x ∉ acc) → l.Nodup → acc.length < needed →
      tierDedup l acc needed = acc ++ l.take (needed - acc.length) := by
  induction l with
  | nil => intro acc needed _ _ _; simp [tierDedup]
  | cons k rest ih =>
    intro acc needed hdisj hnd hacc
    rw [tierDedup]
    have hkacc : k ∉ acc := hdisj k (List.mem_cons_self k rest)
    simp only [if_neg hkacc]
    by_cases hfull : (acc ++ [k]).length ≥ needed
    · rw [if_pos hfull]
      have h1 : needed - acc.length = 1 := by
        simp only [List.length_append, List.length_singleton] at hfull
        omega
      rw [h1]
      simp
    · rw [if_neg hfull]
      have h2 : (acc ++ [k]).length < needed := by omega
      have hdisj' : ∀ x ∈ rest, x ∉ acc ++ [k] := by
        intro x hx
        simp only [List.mem_append, List.mem_singleton]
        rintro (hxa | hxk)
        · exact hdisj x (List.mem_cons_of_mem k hx) hxa
        · subst hxk
          exact (List.nodup_cons.mp hnd).1 hx
      rw [ih _ _ hdisj' (List.nodup_cons.mp hnd).2 h2]
      have h3 : needed - acc.length = (needed - (acc ++ [k]).length) + 1 := by
        simp only [List.length_append, List.length_singleton]
        simp only [List.length_append, List.length_singleton] at hfull
        omega
      rw [h3]
      simp [List.take_succ_cons]

/-! ### Counting same-make and other-make candidates -/

theorem mem_sameMakeOf {l : List GroupKey} {t x : GroupKey} :
    x ∈ sameMakeOf l t ↔ x ∈ l ∧ x.1 = t.1 ∧ x ≠ t := by
  simp [sameMakeOf, List.mem_filter, and_assoc]

theorem mem_otherOf {l : List GroupKey} {t x : GroupKey} :
    x ∈ otherOf l t ↔ x ∈ l ∧ x.1 ≠ t.1 := by
  simp [otherOf, List.mem_filter]

theorem sameMake_other_partition_aux (t : GroupKey) :
    ∀ l : List GroupKey, t ∉ l →
      (sameMakeOf l t).length + (otherOf l t).length = l.length := by
  intro l
  induction l with
  | nil => intro _; simp [sameMakeOf, otherOf]
  | cons x rest ih =>
    intro ht
    have hxt : x ≠ t := fun h => ht (h ▸ List.mem_cons_self x rest)
    have ht' : t ∉ rest := fun h => ht (List.mem_cons_of_mem x h)
    have hrec := ih ht'
    simp only [sameMakeOf, otherOf] at hrec ⊢
    by_cases hx : x.1 = t.1
    · have c1 : (decide (x.1 = t.1) && decide (x ≠ t)) = true := by simp [hx, hxt]
      have c2 : decide (x.1 ≠ t.1) = false := by simp [hx]
      simp only [List.filter_cons, c1, c2, if_true, if_false, List.length_cons,
        Bool.false_eq_true]
      omega
    · have c1 : (decide (x.1 = t.1) && decide (x ≠ t)) = false := by simp [hx]
      have c2 : decide (x.1 ≠ t.1) = true := by simp [hx]
      simp only [List.filter_cons, c1, c2, if_true, if_false, List.length_cons,
        Bool.false_eq_true]
      omega

theorem sameMake_other_partition {l : List GroupKey} {t : GroupKey}
    (hnd : l.Nodup) (ht : t ∈ l) :
    (sameMakeOf l t).length + (otherOf l t).length + 1 = l.length := by
  obtain ⟨E, hperm⟩ : ∃ E : List GroupKey, l.Perm (t :: E) :=
    ⟨_, List.perm_cons_erase ht⟩
  have hndE : (t :: E).Nodup := hperm.nodup_iff.mp hnd
  have htE : t ∉ E := (List.nodup_cons.mp hndE).1
  have h1 : (sameMakeOf l t).length = (sameMakeOf E t).length := by
    have hlen := (hperm.filter (fun k => decide (k.1 = t.1) && decide (k ≠ t))).length_eq
    have hc : (decide (t.1 = t.1) && decide (t ≠ t)) = false := by simp
    simp only [List.filter_cons, hc, Bool.false_eq_true, if_false] at hlen
    simpa [sameMakeOf] using hlen
  have h2 : (otherOf l t).length = (otherOf E t).length := by
    have hlen := (hperm.filter (fun k => decide (k.1 ≠ t.1))).length_eq
    have hc : decide (t.1 ≠ t.1) = false := by simp
    simp only [List.filter_cons, hc, Bool.false_eq_true, if_false] at hlen
    simpa [otherOf] using hlen
  have h4 := sameMake_other_partition_aux t E htE
  have h5 := hperm.length_eq
  simp only [List.length_cons] at h5
  omega

/-! ### Stability of the tier b sort -/

instance (year : Int) : IsTotal GroupKey (distLe year) :=
  ⟨fun a b => by unfold distLe; exact Nat.le_total _ _⟩

instance (year : Int) : IsTrans GroupKey (distLe year) :=
  ⟨fun a b c hab hbc => by unfold distLe at *; omega⟩

theorem orderedInsert_filter_hit (y : Int) (d : Nat) (a : GroupKey)
    (ha : (a.2.2 - y).natAbs = d) :
    ∀ l : List GroupKey,
      (List.orderedInsert (distLe y) a l).filter (fun k => decide ((k.2.2 - y).natAbs = d))
        = a :: l.filter (fun k => decide ((k.2.2 - y).natAbs = d)) := by
  intro l
  induction l with
  | nil => simp [ha]
  | cons b bl ih =>
    rw [List.orderedInsert]
    by_cases hab : distLe y a b
    · rw [if_pos hab]
      simp [List.filter_cons, ha]
    · rw [if_neg hab]
      have hbd : decide ((b.2.2 - y).natAbs = d) = false := by
        simp only [decide_eq_false_iff_not]
        unfold distLe at hab
        omega
      simp only [List.filter_cons, hbd, Bool.false_eq_true, if_false]
      exact ih

theorem orderedInsert_filter_miss (y : Int) (d : Nat) (a : GroupKey)
    (ha : ¬(a.2.2 - y).natAbs = d) :
    ∀ l : List GroupKey,
      (List.orderedInsert (distLe y) a l).filter (fun k => decide ((k.2.2 - y).natAbs = d))
        = l.filter (fun k => decide ((k.2.2 - y).natAbs = d)) := by
  intro l
  induction l with
  | nil => simp [ha]
  | cons b bl ih =>
    rw [List.orderedInsert]
    by_cases hab : distLe y a b
    · rw [if_pos hab]
      simp only [List.filter_cons, decide_eq_false ha, Bool.false_eq_true, if_false]
    · rw [if_neg hab]
      rw [List.filter_cons, List.filter_cons]
      cases hpb : decide ((b.2.2 - y).natAbs = d) <;> simp [hpb, ih]

/-- Python's stable sort: for every distance value, the sorted list retains
the original relative order of the elements at that distance. -/
theorem insertionSort_filter_stable (y : Int) (d : Nat) :
    ∀ l : List GroupKey,
      (List.insertionSort (distLe y) l).filter (fun k => decide ((k.2.2 - y).natAbs = d))
        = l.filter (fun k => decide ((k.2.2 - y).natAbs = d)) := by
  intro l
  induction l with
  | nil => rfl
  | cons a l ih =>
    rw [List.insertionSort]
    by_cases ha : (a.2.2 - y).natAbs = d
    · rw [orderedInsert_filter_hit y d a ha, ih, List.filter_cons]
      simp [ha]
    · rw [orderedInsert_filter_miss y d a ha, ih, List.filter_cons]
      simp [ha]

/-! ### `_pick_distractor_keys` characterizations -/

/-- Tier a fills the whole quota whenever enough same-make groups exist: the
output is the first `n` shuffled same-make keys. -/
theorem pick_all_same_make (catalog : List (GroupKey × List CarRecord))
    (target : GroupKey) (n : Nat) (rng : Rng)
    (h : n ≤ (sameMakeOf (catalog.map Prod.fst) target).length) :
    (_pick_distractor_keys catalog target n rng).1
      = (rng.shuffle (sameMakeOf (catalog.map Prod.fst) target)).1.take n := by
  unfold _pick_distractor_keys
  have hlen : (rng.shuffle (sameMakeOf (catalog.map Prod.fst) target)).1.length
      = (sameMakeOf (catalog.map Prod.fst) target).length :=
    (Rng.shuffle_perm _ _).length_eq
  rcases Nat.eq_zero_or_pos n with hn0 | hnpos
  · subst hn0
    simp
  · have hsel1 : tierTake (rng.shuffle (sameMakeOf (catalog.map Prod.fst) target)).1 [] n
        = (rng.shuffle (sameMakeOf (catalog.map Prod.fst) target)).1.take n := by
      have := tierTake_eq (rng.shuffle (sameMakeOf (catalog.map Prod.fst) target)).1 [] n
        (by simpa using hnpos)
      simpa using this
    have hlen1 : ((rng.shuffle (sameMakeOf (catalog.map Prod.fst) target)).1.take n).length
        = n := by
      rw [List.length_take]
      omega
    simp only [hsel1, hlen1, lt_self_iff_false, if_false]
    exact List.take_of_length_le (le_of_eq hlen1)

/-- When tier a cannot fill the quota, the output is the whole shuffled
same-make list followed by a prefix of the stably sorted shuffled other-make
list. -/
theorem pick_same_make_short (catalog : List (GroupKey × List CarRecord))
    (target : GroupKey) (n : Nat) (rng : Rng)
    (hnd : (catalog.map Prod.fst).Nodup)
    (hshort : (sameMakeOf (catalog.map Prod.fst) target).length < n) :
    (_pick_distractor_keys catalog target n rng).1
      = (rng.shuffle (sameMakeOf (catalog.map Prod.fst) target)).1
        ++ (List.insertionSort (distLe target.2.2)
              ((rng.shuffle (sameMakeOf (catalog.map Prod.fst) target)).2.shuffle
                (otherOf (catalog.map Prod.fst) target)).1).take
            (n - (rng.shuffle (sameMakeOf (catalog.map Prod.fst) target)).1.length) := by
  set keys := catalog.map Prod.fst with hkeys
  set smSh := (rng.shuffle (sameMakeOf keys target)).1 with hsmSh
  set otSh := ((rng.shuffle (sameMakeOf keys target)).2.shuffle (otherOf keys target)).1
    with hotSh
  set sorted := List.insertionSort (distLe target.2.2) otSh with hsorted
  have hsmPerm : smSh.Perm (sameMakeOf keys target) := Rng.shuffle_perm _ _
  have hotPerm : otSh.Perm (otherOf keys target) := Rng.shuffle_perm _ _
  have hsortPerm : sorted.Perm otSh := List.perm_insertionSort _ _
  have hlen : smSh.length = (sameMakeOf keys target).length := hsmPerm.length_eq
  have hshort' : smSh.length < n := by omega
  have hsel1 : tierTake smSh [] n = smSh := by
    have h0 : ([] : List GroupKey).length < n := by simpa using Nat.lt_of_le_of_lt (Nat.zero_le _) hshort'
    rw [tierTake_eq smSh [] n h0]
    simpa using List.take_of_length_le (by omega)
  have hdisj : ∀ x ∈ sorted, x ∉ smSh := by
    intro x hx hxs
    have hxot : x ∈ otherOf keys target := hotPerm.mem_iff.mp (hsortPerm.mem_iff.mp hx)
    have hxsm : x ∈ sameMakeOf keys target := hsmPerm.mem_iff.mp hxs
    exact (mem_otherOf.mp hxot).2 (mem_sameMakeOf.mp hxsm).2.1
  have hndSorted : sorted.Nodup := by
    have hot : (otherOf keys target).Nodup := List.Nodup.filter _ hnd
    exact hsortPerm.nodup_iff.mpr (hotPerm.nodup_iff.mpr hot)
  have hsel2 : tierDedup sorted smSh n = smSh ++ sorted.take (n - smSh.length) :=
    tierDedup_eq sorted smSh n hdisj hndSorted hshort'
  unfold _pick_distractor_keys
  dsimp only
  rw [← hsmSh, ← hotSh, ← hsorted, hsel1, if_pos hshort', hsel2]
  by_cases hc : (smSh ++ sorted.take (n - smSh.length)).length < n
  · rw [if_pos hc]
    have htake_all : sorted.take (n - smSh.length) = sorted := by
      apply List.take_of_length_le
      simp only [List.length_append, List.length_take] at hc
      omega
    have hpool : keys.filter
        (fun k => decide (k ≠ target) &&
          decide (k ∉ smSh ++ sorted.take (n - smSh.length))) = [] := by
      rw [List.filter_eq_nil_iff]
      intro k hk
      by_cases hkt : k = target
      · simp [hkt]
      · have hkin : k ∈ smSh ++ sorted.take (n - smSh.length) := by
          rw [htake_all]
          by_cases hmk : k.1 = target.1
          · exact List.mem_append_left _
              (hsmPerm.mem_iff.mpr (mem_sameMakeOf.mpr ⟨hk, hmk, hkt⟩))
          · exact List.mem_append_right _
              (hsortPerm.mem_iff.mpr (hotPerm.mem_iff.mpr (mem_otherOf.mpr ⟨hk, hmk⟩)))
        simp [hkin]
    rw [hpool]
    have hshuffle_nil : ∀ r : Rng, r.shuffle ([] : List GroupKey) = ([], ⟨r.stream, r.pos⟩) := by
      intro r
      simp [Rng.shuffle, shuffleFuel]
    rw [hshuffle_nil]
    simp only [tierTake]
    exact List.take_of_length_le (le_of_lt hc)
  · rw [if_neg hc]
    dsimp only
    apply List.take_of_length_le
    simp only [List.length_append, List.length_take]
    omega

/-- Whenever at least `n + 1` groups exist, `_pick_distractor_keys` returns
exactly `n` pairwise-distinct keys drawn from the catalog, never including
the target. -/
theorem pick_spec (catalog : List (GroupKey × List CarRecord))
    (target : GroupKey) (n : Nat) (rng : Rng)
    (hnd : (catalog.map Prod.fst).Nodup) (ht : target ∈ catalog.map Prod.fst)
    (hn : n + 1 ≤ catalog.length) :
    (_pick_distractor_keys catalog target n rng).1.length = n
    ∧ (_pick_distractor_keys catalog target n rng).1.Nodup
    ∧ ∀ x ∈ (_pick_distractor_keys catalog target n rng).1,
        x ∈ catalog.map Prod.fst ∧ x ≠ target := by
  have hkl : (catalog.map Prod.fst).length = catalog.length := List.length_map _ _
  have hpart := sameMake_other_partition hnd ht
  have hsmNodup : (sameMakeOf (catalog.map Prod.fst) target).Nodup := List.Nodup.filter _ hnd
  have hotNodup : (otherOf (catalog.map Prod.fst) target).Nodup := List.Nodup.filter _ hnd
  by_cases hcase : n ≤ (sameMakeOf (catalog.map Prod.fst) target).length
  · rw [pick_all_same_make catalog target n rng hcase]
    have hperm : (rng.shuffle (sameMakeOf (catalog.map Prod.fst) target)).1.Perm
        (sameMakeOf (catalog.map Prod.fst) target) := Rng.shuffle_perm _ _
    have hlen := hperm.length_eq
    have hnodup := hperm.nodup_iff.mpr hsmNodup
    refine ⟨?_, ?_, ?_⟩
    · rw [List.length_take]
      omega
    · exact (List.take_sublist _ _).nodup hnodup
    · intro x hx
      have hxs : x ∈ sameMakeOf (catalog.map Prod.fst) target :=
        hperm.mem_iff.mp (List.mem_of_mem_take hx)
      have := mem_sameMakeOf.mp hxs
      exact ⟨this.1, this.2.2⟩
  · have hshort : (sameMakeOf (catalog.map Prod.fst) target).length < n := by omega
    rw [pick_same_make_short catalog target n rng hnd hshort]
    have hsmPerm : (rng.shuffle (sameMakeOf (catalog.map Prod.fst) target)).1.Perm
        (sameMakeOf (catalog.map Prod.fst) target) := Rng.shuffle_perm _ _
    have hotPerm : ((rng.shuffle (sameMakeOf (catalog.map Prod.fst) target)).2.shuffle
        (otherOf (catalog.map Prod.fst) target)).1.Perm
        (otherOf (catalog.map Prod.fst) target) := Rng.shuffle_perm _ _
    have hsortPerm := List.perm_insertionSort (distLe target.2.2)
      ((rng.shuffle (sameMakeOf (catalog.map Prod.fst) target)).2.shuffle
        (otherOf (catalog.map Prod.fst) target)).1
    have hlen1 := hsmPerm.length_eq
    have hlen2 := (hsortPerm.trans hotPerm).length_eq
    have hnds := hsmPerm.nodup_iff.mpr hsmNodup
    have hndo := (hsortPerm.trans hotPerm).nodup_iff.mpr hotNodup
    have hdisj : ∀ x ∈ (rng.shuffle (sameMakeOf (catalog.map Prod.fst) target)).1,
        ∀ hy : x ∈ (List.insertionSort (distLe target.2.2)
          ((rng.shuffle (sameMakeOf (catalog.map Prod.fst) target)).2.shuffle
            (otherOf (catalog.map Prod.fst) target)).1), False := by
      intro x hx hy
      have h1 := mem_sameMakeOf.mp (hsmPerm.mem_iff.mp hx)
      have h2 := mem_otherOf.mp ((hsortPerm.trans hotPerm).mem_iff.mp hy)
      exact h2.2 h1.2.1
    refine ⟨?_, ?_, ?_⟩
    · rw [List.length_append, List.length_take]
      omega
    · rw [List.nodup_append]
      refine ⟨hnds, (List.take_sublist _ _).nodup hndo, ?_⟩
      intro a ha hb
      exact hdisj a ha (List.mem_of_mem_take hb)
    · intro x hx
      rcases List.mem_append.mp hx with hx | hx
      · have := mem_sameMakeOf.mp (hsmPerm.mem_iff.mp hx)
        exact ⟨this.1, this.2.2⟩
      · have := mem_otherOf.mp ((hsortPerm.trans hotPerm).mem_iff.mp (List.mem_of_mem_take hx))
        refine ⟨this.1, ?_⟩
        intro hxt
        exact this.2 (by rw [hxt])

/-! ### `buildChoices` facts -/

theorem headD_mem {l : List α} {d : α} (h : l ≠ []) : l.headD d ∈ l := by
  cases l with
  | nil => exact absurd rfl h
  | cons a as => exact List.mem_cons_self a as

theorem buildChoices_length (catalog : List (GroupKey × List CarRecord))
    (tk : GroupKey) (img : CarRecord) (dk : List GroupKey) :
    (buildChoices catalog tk img dk).length = dk.length + 1 := by
  simp [buildChoices, List.enum_length]

theorem buildChoices_ids (catalog : List (GroupKey × List CarRecord))
    (tk : GroupKey) (img : CarRecord) (dk : List GroupKey) :
    (buildChoices catalog tk img dk).map QuizChoice.id
      = 0 :: (List.range dk.length).map (· + 1) := by
  unfold buildChoices
  simp only [List.map_cons, List.map_map]
  congr 1
  have h1 : (QuizChoice.id ∘ fun p : Nat × GroupKey =>
      ({ id := p.1 + 1, label := _format_label p.2,
         record := (catalogGroup catalog p.2).headD img } : QuizChoice))
      = (fun i => i + 1) ∘ Prod.fst := rfl
  rw [h1, ← List.map_map, List.enum_map_fst]

theorem buildChoices_filter_correct (catalog : List (GroupKey × List CarRecord))
    (tk : GroupKey) (img : CarRecord) (dk : List GroupKey) :
    (buildChoices catalog tk img dk).filter (fun c => decide (c.id = 0))
      = [{ id := 0, label := _format_label tk, record := img }] := by
  unfold buildChoices
  rw [List.filter_cons]
  have h0 : (decide (({ id := 0, label := _format_label tk, record := img } :
      QuizChoice).id = 0)) = true := by simp
  rw [h0, if_pos rfl]
  have hrest : (dk.enum.map (fun p : Nat × GroupKey =>
      ({ id := p.1 + 1, label := _format_label p.2,
         record := (catalogGroup catalog p.2).headD img } : QuizChoice))).filter
      (fun c => decide (c.id = 0)) = [] := by
    rw [List.filter_eq_nil_iff]
    intro c hc
    obtain ⟨p, _, hp⟩ := List.mem_map.mp hc
    subst hp
    simp
  rw [hrest]

theorem buildChoices_keys (catalog : List (GroupKey × List CarRecord))
    (tk : GroupKey) (img : CarRecord) (dk : List GroupKey)
    (himg : recKey img = tk)
    (hdk : ∀ k ∈ dk, recKey ((catalogGroup catalog k).headD img) = k) :
    (buildChoices catalog tk img dk).map choiceKey = tk :: dk := by
  unfold buildChoices
  simp only [List.map_cons, List.map_map]
  rw [List.cons_eq_cons]
  refine ⟨himg, ?_⟩
  have hpt : ∀ p ∈ dk.enum, (choiceKey ∘ fun p : Nat × GroupKey =>
      ({ id := p.1 + 1, label := _format_label p.2,
         record := (catalogGroup catalog p.2).headD img } : QuizChoice)) p
        = Prod.snd p := by
    intro p hp
    have hmem : p.2 ∈ dk := by
      have := List.mem_map_of_mem Prod.snd hp
      rwa [List.enum_map_snd] at this
    exact hdk p.2 hmem
  rw [List.map_congr_left hpt, List.enum_map_snd]

theorem buildChoices_labels (catalog : List (GroupKey × List CarRecord))
    (tk : GroupKey) (img : CarRecord) (dk : List GroupKey)
    (himg : recKey img = tk)
    (hdk : ∀ k ∈ dk, recKey ((catalogGroup catalog k).headD img) = k) :
    ∀ c ∈ buildChoices catalog tk img dk, c.label = _format_label (choiceKey c) := by
  intro c hc
  unfold buildChoices at hc
  rcases List.mem_cons.mp hc with hc | hc
  · subst hc
    simp only [choiceKey]
    rw [himg]
  · obtain ⟨p, hp, hpc⟩ := List.mem_map.mp hc
    subst hpc
    have hmem : p.2 ∈ dk := by
      have := List.mem_map_of_mem Prod.snd hp
      rwa [List.enum_map_snd] at this
    simp only [choiceKey]
    rw [hdk p.2 hmem]

/-! ### `generate_question` facts -/

theorem generate_invalid (records : List CarRecord) (k : Int) (rng : Rng) (hk : k < 2) :
    generate_question records k rng = .error .invalidChoiceCount := by
  unfold generate_question
  rw [if_pos hk]

theorem generate_insufficient (records : List CarRecord) (k : Int) (rng : Rng)
    (hk : ¬k < 2) (hlen : ((_group_by_meta records).length : Int) < k) :
    generate_question records k rng = .error .insufficientCatalog := by
  unfold generate_question
  rw [if_neg hk]
  dsimp only
  rw [if_pos hlen]

/-- The success path of `generate_question`: with a valid choice count and a
large enough catalog, the call succeeds and the returned question has the
right number of choices, exactly one choice carrying `correct_choice_id`,
pairwise distinct group keys, and labels formatted from those keys. -/
theorem generate_ok_spec (records : List CarRecord) (k : Int) (rng : Rng)
    (h2 : 2 ≤ k) (hk : k ≤ ((_group_by_meta records).length : Int)) :
    ∃ q rng', generate_question records k rng = .ok (q, rng')
      ∧ (q.choices.length : Int) = k
      ∧ q.correct_choice_id = 0
      ∧ (q.choices.filter (fun c => decide (c.id = q.correct_choice_id))).length = 1
      ∧ (q.choices.map choiceKey).Nodup
      ∧ (∀ c ∈ q.choices, c.label = _format_label (choiceKey c)) := by
  have hinv := group_by_meta_inv records
  have hk2 : ¬k < 2 := by omega
  have hlen : ¬((_group_by_meta records).length : Int) < k := by omega
  have hcatpos : 0 < (_group_by_meta records).length := by
    by_contra hz
    have : (_group_by_meta records).length = 0 := by omega
    rw [this] at hk
    simp at hk
    omega
  unfold generate_question
  rw [if_neg hk2]
  try dsimp only
  rw [if_neg hlen]
  try dsimp only
  set catalog := _group_by_meta records with hcat
  set tgt := rng.choiceD catalog (("", "", 0), []) with htgt
  set img := tgt.2.choiceD tgt.1.2 dummyRecord with himg
  set dk := _pick_distractor_keys catalog tgt.1.1 (k - 1).toNat img.2 with hdk
  set ch := buildChoices catalog tgt.1.1 img.1 dk.1 with hch
  set sh := dk.2.shuffle ch with hsh
  -- the chosen catalog entry
  have htgtMem : tgt.1 ∈ catalog := by
    rw [htgt]
    unfold Rng.choiceD
    dsimp only
    rw [List.getD_eq_getElem catalog _ (Nat.mod_lt _ hcatpos)]
    exact List.getElem_mem _
  have htgtInv := hinv.2 tgt.1 htgtMem
  have htkMem : tgt.1.1 ∈ catalog.map Prod.fst := List.mem_map_of_mem Prod.fst htgtMem
  -- the displayed record belongs to the target bucket
  have himgMem : img.1 ∈ tgt.1.2 := by
    rw [himg]
    unfold Rng.choiceD
    dsimp only
    have hpos : 0 < tgt.1.2.length := List.length_pos.mpr htgtInv.1
    rw [List.getD_eq_getElem tgt.1.2 _ (Nat.mod_lt _ hpos)]
    exact List.getElem_mem _
  have himgKey : recKey img.1 = tgt.1.1 := htgtInv.2 img.1 himgMem
  -- distractor keys
  have hn : (k - 1).toNat + 1 ≤ catalog.length := by omega
  have hpick := pick_spec catalog tgt.1.1 (k - 1).toNat img.2 hinv.1 htkMem hn
  have hdkRep : ∀ x ∈ dk.1, recKey ((catalogGroup catalog x).headD img.1) = x := by
    intro x hx
    have hxk : x ∈ catalog.map Prod.fst := ((hpick.2.2) x hx).1
    have hcg := catalogGroup_spec hinv hxk
    exact hcg.2 _ (headD_mem hcg.1)
  have htgtNotMem : tgt.1.1 ∉ dk.1 := by
    intro hmem
    exact ((hpick.2.2) _ hmem).2 rfl
  -- choice list facts
  have hchKeys : ch.map choiceKey = tgt.1.1 :: dk.1 :=
    buildChoices_keys catalog tgt.1.1 img.1 dk.1 himgKey hdkRep
  have hchLen : ch.length = dk.1.length + 1 := buildChoices_length _ _ _ _
  have hshPerm : sh.1.Perm ch := Rng.shuffle_perm _ _
  refine ⟨_, _, rfl, ?_, rfl, ?_, ?_, ?_⟩
  · try dsimp only
    rw [hshPerm.length_eq, hchLen, hpick.1]
    omega
  · try dsimp only
    have hfp := (hshPerm.filter (fun c => decide (c.id = 0))).length_eq
    rw [hfp, buildChoices_filter_correct]
    rfl
  · try dsimp only
    rw [(hshPerm.map choiceKey).nodup_iff]
    rw [hchKeys]
    exact List.nodup_cons.mpr ⟨htgtNotMem, hpick.2.1⟩
  · try dsimp only
    intro c hc
    exact buildChoices_labels catalog tgt.1.1 img.1 dk.1 himgKey hdkRep c
      (hshPerm.mem_iff.mp hc)

/-! ### `parse_car_filename` record facts -/

/-- Every parsed record's year is in range, and its make and model are
non-empty provided every stem token contains an ASCII alphanumeric
character. -/
theorem parse_fields (stem relPath : String) (lex : Lexicon) (r : CarRecord)
    (h : parse_car_filename stem relPath lex = some r) :
    (1950 ≤ r.year ∧ r.year ≤ 2035)
    ∧ ((∀ t ∈ stemTokens stem, t.data.any isAsciiAlnum = true) →
        r.make ≠ "" ∧ r.model ≠ "") := by
  unfold parse_car_filename at h
  dsimp only at h
  cases hfy : find_year_index (stemTokens stem) with
  | none =>
    rw [hfy] at h
    exact Option.noConfusion h
  | some year_idx =>
    rw [hfy] at h
    dsimp only at h
    by_cases h0 : year_idx = 0
    · rw [if_pos h0] at h
      exact Option.noConfusion h
    · rw [if_neg h0] at h
      by_cases hpre : (stemTokens stem).take year_idx = []
      · rw [if_pos hpre] at h
        exact Option.noConfusion h
      · rw [if_neg hpre] at h
        have hy := (find_year_index_spec (stemTokens stem) year_idx).mp hfy
        have hyr := isYearToken_range hy.2.1
        rcases hres : (lex.resolve_make ((stemTokens stem).take year_idx)).1 with _ | m
        · -- fallback: first pre-year token humanized
          rw [hres] at h
          dsimp only at h
          by_cases hmt : ((stemTokens stem).take year_idx).drop 1 = []
          · rw [if_pos hmt] at h
            exact Option.noConfusion h
          · rw [if_neg hmt] at h
            have hrv := Option.some.inj h
            subst hrv
            refine ⟨⟨hyr.1, hyr.2⟩, ?_⟩
            intro halnum
            have hheadmem : ((stemTokens stem).take year_idx).headD "" ∈ stemTokens stem :=
              (List.take_sublist year_idx (stemTokens stem)).subset
                (headD_mem hpre)
            constructor
            · exact humanize_token_ne_empty (halnum _ hheadmem)
            · cases hmtl : ((stemTokens stem).take year_idx).drop 1 with
              | nil => exact absurd hmtl hmt
              | cons t rest =>
                have htmem : t ∈ stemTokens stem :=
                  (List.take_sublist year_idx (stemTokens stem)).subset
                    ((List.drop_sublist 1 _).subset (hmtl ▸ List.mem_cons_self t rest))
                exact humanize_tokens_ne_empty (humanize_token_ne_empty (halnum _ htmem))
        · -- resolved make
          rw [hres] at h
          dsimp only at h
          by_cases hmt : ((stemTokens stem).take year_idx).drop
              (lex.resolve_make ((stemTokens stem).take year_idx)).2 = []
          · rw [if_pos hmt] at h
            exact Option.noConfusion h
          · rw [if_neg hmt] at h
            have hrv := Option.some.inj h
            subst hrv
            refine ⟨⟨hyr.1, hyr.2⟩, ?_⟩
            intro halnum
            constructor
            · exact resolve_make_fst_ne_empty hres
            · cases hmtl : ((stemTokens stem).take year_idx).drop
                  (lex.resolve_make ((stemTokens stem).take year_idx)).2 with
              | nil => exact absurd hmtl hmt
              | cons t rest =>
                have htmem : t ∈ stemTokens stem :=
                  (List.take_sublist year_idx (stemTokens stem)).subset
                    ((List.drop_sublist _ _).subset (hmtl ▸ List.mem_cons_self t rest))
                exact humanize_tokens_ne_empty (humanize_token_ne_empty (halnum _ htmem))

/-! ## Claim theorems -/

/-- C1 (amended): for every record list with at least `k` distinct
`(make, model, year)` groups and every `k ≥ 2`, `generate_question` with
`num_choices = k` succeeds with exactly `k` choices, exactly one choice
bearing `correct_choice_id`, and the `(make, model, year)` groups of the `k`
choices pairwise distinct; the `k` labels are pairwise distinct whenever
equal labels imply equal groups among the question's choices (which the
non-injective label formatting cannot guarantee in general). -/
theorem C1_generate_shape (records : List CarRecord) (k : Int) (rng : Rng)
    (h2 : 2 ≤ k) (hk : k ≤ (groupsCount records : Int)) :
    ∃ q rng', generate_question records k rng = .ok (q, rng')
      ∧ (q.choices.length : Int) = k
      ∧ (q.choices.filter (fun c => decide (c.id = q.correct_choice_id))).length = 1
      ∧ (q.choices.map choiceKey).Nodup
      ∧ ((∀ c1 ∈ q.choices, ∀ c2 ∈ q.choices,
            c1.label = c2.label → choiceKey c1 = choiceKey c2)
          → (q.choices.map QuizChoice.label).Nodup) := by
  obtain ⟨q, r', heq, hlen, -, hfilt, hnd, -⟩ :=
    generate_ok_spec records k rng h2 (by simpa [groupsCount] using hk)
  refine ⟨q, r', heq, hlen, hfilt, hnd, ?_⟩
  intro hinj
  have hndch : q.choices.Nodup := List.Nodup.of_map _ hnd
  apply List.Nodup.map_on ?_ hndch
  intro x hx y hy hxy
  exact List.inj_on_of_nodup_map hnd hx hy (hinj x hx y hy hxy)

/-- C1 witness: a concrete two-group catalog at `k = 2`. -/
theorem C1_generate_shape_witness :
    ∃ q rng', generate_question [toyR1, toyR2] 2 zeroRng = .ok (q, rng')
      ∧ (q.choices.length : Int) = 2
      ∧ (q.choices.filter (fun c => decide (c.id = q.correct_choice_id))).length = 1
      ∧ (q.choices.map choiceKey).Nodup
      ∧ ((∀ c1 ∈ q.choices, ∀ c2 ∈ q.choices,
            c1.label = c2.label → choiceKey c1 = choiceKey c2)
          → (q.choices.map QuizChoice.label).Nodup) :=
  C1_generate_shape [toyR1, toyR2] 2 zeroRng (by decide) (by decide)

/-- C1 counterexample: two distinct groups whose labels both format to
`"A B C 2000"`; the generated question's labels are not pairwise distinct,
refuting the claim as stated. -/
theorem C1_label_collision :
    groupsCount [cexR1, cexR2] = 2
    ∧ (choicesOf (generate_question [cexR1, cexR2] 2 zeroRng)).map
        (fun cs => decide (cs.map QuizChoice.label).Nodup) = some false := by decide

/-- C2: whenever at least `num_needed` other groups share the target's make,
every selected distractor key has the target's make (and is not the target):
the different-make tier is never drawn from. -/
theorem C2_same_make_priority (catalog : List (GroupKey × List CarRecord))
    (target : GroupKey) (n : Nat) (rng : Rng)
    (h : n ≤ (sameMakeOf (catalog.map Prod.fst) target).length) :
    (_pick_distractor_keys catalog target n rng).1.length = n
    ∧ ∀ x ∈ (_pick_distractor_keys catalog target n rng).1,
        x.1 = target.1 ∧ x ≠ target := by
  rw [pick_all_same_make catalog target n rng h]
  have hperm := Rng.shuffle_perm rng (sameMakeOf (catalog.map Prod.fst) target)
  constructor
  · rw [List.length_take]
    have := hperm.length_eq
    omega
  · intro x hx
    have := mem_sameMakeOf.mp (hperm.mem_iff.mp (List.mem_of_mem_take hx))
    exact ⟨this.2.1, this.2.2⟩

/-- C2 witness: a catalog with three Toyota groups and one Honda group; both
distractors for the Toyota target are Toyota groups. -/
theorem C2_same_make_priority_witness :
    (_pick_distractor_keys (_group_by_meta [toyR1, toyR2, toyR3, hondaR])
        ("Toyota", "Corolla", 2000) 2 zeroRng).1.length = 2
    ∧ ∀ x ∈ (_pick_distractor_keys (_group_by_meta [toyR1, toyR2, toyR3, hondaR])
        ("Toyota", "Corolla", 2000) 2 zeroRng).1,
        x.1 = ("Toyota", "Corolla", (2000 : Int)).1 ∧ x ≠ ("Toyota", "Corolla", (2000 : Int)) :=
  C2_same_make_priority (_group_by_meta [toyR1, toyR2, toyR3, hondaR])
    ("Toyota", "Corolla", 2000) 2 zeroRng (by decide)

/-- C3: `resolve_make` scans windows of decreasing size from
`min(len(tokens), 3)` down to 1, returning the first (longest) truthy
alias-table hit together with the window size; `(none, 0)` when no window
hits; and `["land", "rover", "discovery"]` resolves to `("Land Rover", 2)`
under the default lexicon. -/
theorem C3_resolve_make :
    (∀ (lex : Lexicon) (tokens : List String) (m : String) (s : Nat),
        lex.resolve_make tokens = (some m, s) →
        m ≠ "" ∧ 1 ≤ s ∧ s ≤ min tokens.length 3
          ∧ windowHit lex tokens s = some m
          ∧ ∀ t, s < t → t ≤ min tokens.length 3 →
              ∀ m', windowHit lex tokens t = some m' → m' = "")
    ∧ (∀ (lex : Lexicon) (tokens : List String) (s : Nat),
        lex.resolve_make tokens = (none, s) → s = 0 ∧
          ∀ t, 1 ≤ t → t ≤ min tokens.length 3 →
            ∀ m', windowHit lex tokens t = some m' → m' = "")
    ∧ defaultLexicon.resolve_make ["land", "rover", "discovery"]
        = (some "Land Rover", 2) := by
  refine ⟨?_, ?_, by decide⟩
  · intro lex tokens m s h
    exact (resolveGo_spec lex tokens (min tokens.length 3)).1 m s h
  · intro lex tokens s h
    exact (resolveGo_spec lex tokens (min tokens.length 3)).2 s h

/-- C3 witness: the longest-match facts instantiated on the
`["land", "rover", "discovery"]` example. -/
theorem C3_resolve_make_witness :
    "Land Rover" ≠ "" ∧ 1 ≤ 2
      ∧ 2 ≤ min (["land", "rover", "discovery"] : List String).length 3
      ∧ windowHit defaultLexicon ["land", "rover", "discovery"] 2 = some "Land Rover"
      ∧ ∀ t, 2 < t → t ≤ min (["land", "rover", "discovery"] : List String).length 3 →
          ∀ m', windowHit defaultLexicon ["land", "rover", "discovery"] t = some m' →
            m' = "" :=
  C3_resolve_make.1 defaultLexicon ["land", "rover", "discovery"] "Land Rover" 2 (by decide)

/-- C4: parsing `ford_mustang_gt_2018_01.jpg` (stem
`ford_mustang_gt_2018_01`) with the default lexicon yields make `"Ford"`,
model `"Mustang Gt"` (the lowercase token `"gt"` is title-cased), and year
2018. -/
theorem C4_ford_mustang_gt :
    parse_car_filename "ford_mustang_gt_2018_01" "ford_mustang_gt_2018_01.jpg" defaultLexicon
      = some { path := "ford_mustang_gt_2018_01.jpg", make := "Ford",
               model := "Mustang Gt", year := 2018 } := by decide

/-- C5 (amended): every record returned by `parse_car_filename` has its year
in `[1950, 2035]`; its make and model are additionally non-empty provided
every underscore-separated stem token contains an ASCII alphanumeric
character (without that proviso make or model can be empty, see the
counterexample). -/
theorem C5_record_invariants (stem relPath : String) (lex : Lexicon) (r : CarRecord)
    (h : parse_car_filename stem relPath lex = some r) :
    (1950 ≤ r.year ∧ r.year ≤ 2035)
    ∧ ((∀ t ∈ stemTokens stem, t.data.any isAsciiAlnum = true) →
        r.make ≠ "" ∧ r.model ≠ "") :=
  parse_fields stem relPath lex r h

/-- C5 witness: the invariants instantiated on the parsed
`ford_mustang_gt_2018_01.jpg` record. -/
theorem C5_record_invariants_witness :
    (1950 ≤ fordRec.year ∧ fordRec.year ≤ 2035)
    ∧ ((∀ t ∈ stemTokens "ford_mustang_gt_2018_01", t.data.any isAsciiAlnum = true) →
        fordRec.make ≠ "" ∧ fordRec.model ≠ "") :=
  C5_record_invariants "ford_mustang_gt_2018_01" "ford_mustang_gt_2018_01.jpg"
    defaultLexicon fordRec (by decide)

/-- C5 counterexample: the stem `_x_2018` parses to a record with an empty
make, and `a__2018` parses to a record with an empty model, refuting the
unconditional non-emptiness claim. -/
theorem C5_empty_field_records :
    parse_car_filename "_x_2018" "imgs/a.jpg" defaultLexicon
      = some { path := "imgs/a.jpg", make := "", model := "X", year := 2018 }
    ∧ parse_car_filename "a__2018" "imgs/b.jpg" defaultLexicon
      = some { path := "imgs/b.jpg", make := "A", model := "", year := 2018 } := by decide

/-- C6 (amended): `generate_question` fails with `InvalidChoiceCount` for
every input with `num_choices < 2`, and fails with `InsufficientCatalog` for
every input with `num_choices ≥ 2` whose number of distinct groups is below
`num_choices`; in both cases no question is produced (the `num_choices`
check runs first, so on overlapping inputs `InvalidChoiceCount` wins — see
the counterexample). -/
theorem C6_error_cases :
    (∀ (records : List CarRecord) (k : Int) (rng : Rng), k < 2 →
        generate_question records k rng = .error .invalidChoiceCount)
    ∧ (∀ (records : List CarRecord) (k : Int) (rng : Rng), 2 ≤ k →
        (groupsCount records : Int) < k →
        generate_question records k rng = .error .insufficientCatalog) := by
  constructor
  · intro records k rng hk
    exact generate_invalid records k rng hk
  · intro records k rng h2 hlt
    exact generate_insufficient records k rng (by omega) (by simpa [groupsCount] using hlt)

/-- C6 witness: both failure modes on concrete inputs. -/
theorem C6_error_cases_witness :
    generate_question [] 0 zeroRng = .error .invalidChoiceCount
    ∧ generate_question [cexR1] 2 zeroRng = .error .insufficientCatalog :=
  ⟨C6_error_cases.1 [] 0 zeroRng (by decide),
   C6_error_cases.2 [cexR1] 2 zeroRng (by decide) (by decide)⟩

/-- C6 counterexample: on the empty catalog with `num_choices = 1`, the
number of groups (0) is below `num_choices`, yet the call fails with
`InvalidChoiceCount`, not `InsufficientCatalog` — so "fails with
`InsufficientCatalog` for every input whose group count is below
`num_choices`" is false as stated. -/
theorem C6_overlap_input :
    (groupsCount ([] : List CarRecord) : Int) < 1
    ∧ errOf (generate_question [] 1 zeroRng) = some .invalidChoiceCount
    ∧ errOf (generate_question [] 1 zeroRng) ≠ some .insufficientCatalog := by decide

/-- C7 (amended): `find_year_index` never returns the index of a token whose
four-digit value is out of `[1950, 2035]`; the rejection of a year token at
position 0 is performed by `parse_car_filename` (not by `find_year_index`,
which does return index 0 — see the counterexample), so a stem whose year
token is first yields no parsed record. -/
theorem C7_year_rejections :
    (∀ (tokens : List String) (i : Nat), find_year_index tokens = some i →
        i < tokens.length ∧ matchesYearPattern (tokens.getD i "") = true
          ∧ 1950 ≤ yearVal (tokens.getD i "") ∧ yearVal (tokens.getD i "") ≤ 2035)
    ∧ (∀ (stem relPath : String) (lex : Lexicon),
        find_year_index (stemTokens stem) = some 0 →
        parse_car_filename stem relPath lex = none) := by
  constructor
  · intro tokens i h
    obtain ⟨hlen, hy, -⟩ := (find_year_index_spec tokens i).mp h
    have hr := isYearToken_range hy
    simp only [isYearToken, Bool.and_eq_true, decide_eq_true_eq] at hy
    exact ⟨hlen, hy.1.1, hr.1, hr.2⟩
  · intro stem relPath lex h
    unfold parse_car_filename
    dsimp only
    rw [h]
    dsimp only
    rw [if_pos rfl]

/-- C7 witness: the in-range guarantee on `["x", "2007"]` and the
position-0 rejection on the stem `2018_x`. -/
theorem C7_year_rejections_witness :
    (1 < (["x", "2007"] : List String).length
      ∧ matchesYearPattern ((["x", "2007"] : List String).getD 1 "") = true
      ∧ 1950 ≤ yearVal ((["x", "2007"] : List String).getD 1 "")
      ∧ yearVal ((["x", "2007"] : List String).getD 1 "") ≤ 2035)
    ∧ parse_car_filename "2018_x" "p" defaultLexicon = none :=
  ⟨C7_year_rejections.1 ["x", "2007"] 1 (by decide),
   C7_year_rejections.2 "2018_x" "p" defaultLexicon (by decide)⟩

/-- C7 counterexample: `find_year_index` itself does not reject a year token
at position 0 — it returns index 0 (the rejection happens later in
`parse_car_filename`). -/
theorem C7_position_zero :
    find_year_index ["1999", "x"] = some 0 := by decide

/-- C8: when the shuffled same-make tier cannot fill the quota, the output
extends it with other-make keys taken in the order of a list that is a
permutation of the shuffled other-make candidates, sorted by absolute year
distance to the target (ascending), and — for every distance — preserving
the pre-sort shuffle order of the candidates at that distance (stable
sort). -/
theorem C8_tier_b_order (catalog : List (GroupKey × List CarRecord))
    (target : GroupKey) (n : Nat) (rng : Rng)
    (hnd : (catalog.map Prod.fst).Nodup)
    (hshort : (rng.shuffle (sameMakeOf (catalog.map Prod.fst) target)).1.length < n) :
    ∃ sortedOther : List GroupKey,
      (_pick_distractor_keys catalog target n rng).1
        = (rng.shuffle (sameMakeOf (catalog.map Prod.fst) target)).1
          ++ sortedOther.take
              (n - (rng.shuffle (sameMakeOf (catalog.map Prod.fst) target)).1.length)
      ∧ sortedOther.Perm ((rng.shuffle (sameMakeOf (catalog.map Prod.fst) target)).2.shuffle
          (otherOf (catalog.map Prod.fst) target)).1
      ∧ List.Sorted (distLe target.2.2) sortedOther
      ∧ ∀ d : Nat,
          sortedOther.filter (fun x => decide ((x.2.2 - target.2.2).natAbs = d))
            = (((rng.shuffle (sameMakeOf (catalog.map Prod.fst) target)).2.shuffle
                (otherOf (catalog.map Prod.fst) target)).1).filter
              (fun x => decide ((x.2.2 - target.2.2).natAbs = d)) := by
  have hlen := (Rng.shuffle_perm rng (sameMakeOf (catalog.map Prod.fst) target)).length_eq
  refine ⟨List.insertionSort (distLe target.2.2)
      ((rng.shuffle (sameMakeOf (catalog.map Prod.fst) target)).2.shuffle
        (otherOf (catalog.map Prod.fst) target)).1,
    ?_, List.perm_insertionSort _ _, List.sorted_insertionSort _ _,
    fun d => insertionSort_filter_stable _ d _⟩
  exact pick_same_make_short catalog target n rng hnd (by omega)

/-- C8 witness: one Toyota target with only different-make candidates
(Honda 2000, Ford 2005); the tier b facts instantiated concretely. -/
theorem C8_tier_b_order_witness :
    ∃ sortedOther : List GroupKey,
      (_pick_distractor_keys (_group_by_meta [toyR1, hondaR, fordR])
          ("Toyota", "Corolla", 2000) 2 zeroRng).1
        = (zeroRng.shuffle (sameMakeOf ((_group_by_meta [toyR1, hondaR, fordR]).map Prod.fst)
            ("Toyota", "Corolla", 2000))).1
          ++ sortedOther.take
              (2 - (zeroRng.shuffle (sameMakeOf
                ((_group_by_meta [toyR1, hondaR, fordR]).map Prod.fst)
                ("Toyota", "Corolla", 2000))).1.length)
      ∧ sortedOther.Perm ((zeroRng.shuffle (sameMakeOf
          ((_group_by_meta [toyR1, hondaR, fordR]).map Prod.fst)
          ("Toyota", "Corolla", 2000))).2.shuffle
          (otherOf ((_group_by_meta [toyR1, hondaR, fordR]).map Prod.fst)
            ("Toyota", "Corolla", 2000))).1
      ∧ List.Sorted (distLe ("Toyota", "Corolla", (2000 : Int)).2.2) sortedOther
      ∧ ∀ d : Nat,
          sortedOther.filter
              (fun x => decide ((x.2.2 - ("Toyota", "Corolla", (2000 : Int)).2.2).natAbs = d))
            = ((zeroRng.shuffle (sameMakeOf
                ((_group_by_meta [toyR1, hondaR, fordR]).map Prod.fst)
                ("Toyota", "Corolla", 2000))).2.shuffle
                (otherOf ((_group_by_meta [toyR1, hondaR, fordR]).map Prod.fst)
                  ("Toyota", "Corolla", 2000))).1.filter
              (fun x => decide ((x.2.2 - ("Toyota", "Corolla", (2000 : Int)).2.2).natAbs = d)) :=
  C8_tier_b_order (_group_by_meta [toyR1, hondaR, fordR]) ("Toyota", "Corolla", 2000) 2
    zeroRng (by decide) (by decide)

/-- C9: serializing a catalog of records and deserializing it back yields the
same records, order and all four fields preserved. -/
theorem C9_round_trip (records : List CarRecord) :
    deserializeRecords (serializeRecords records) = some records := by
  have haux : ∀ l : List CarRecord, deserializeList (l.map serializeRecord) = some l := by
    intro l
    induction l with
    | nil => rfl
    | cons r rest ih =>
      show deserializeList (serializeRecord r :: rest.map serializeRecord) = some (r :: rest)
      unfold deserializeList
      rw [ih]
      rfl
  exact haux records

/-- C10: `find_year_index` returns exactly the first index whose token both
matches the `(19|20)\d{2}` pattern and has value in `[1950, 2035]`; an
earlier pattern-matching but out-of-range token such as `"1920"` is skipped
rather than aborting the search. -/
theorem C10_first_valid_year :
    (∀ (tokens : List String) (i : Nat),
        find_year_index tokens = some i ↔
          i < tokens.length ∧ isYearToken (tokens.getD i "") = true ∧
            ∀ j, j < i → isYearToken (tokens.getD j "") = false)
    ∧ find_year_index ["1920", "2000"] = some 1
    ∧ matchesYearPattern "1920" = true
    ∧ isYearToken "1920" = false :=
  ⟨find_year_index_spec, by decide, by decide, by decide⟩

/-- C10 witness: the characterization instantiated on `["1920", "2000"]`. -/
theorem C10_first_valid_year_witness :
    find_year_index ["1920", "2000"] = some 1 :=
  (C10_first_valid_year.1 ["1920", "2000"] 1).mpr (by decide)

end CarPicker
